import Mathlib

/-!
Shallow embedding of the hash-tool repository's core
(`src/core/hasher.py`, `src/core/file_handler.py`, `config.py`,
history handling in `src/ui/layout.py`).

Digest primitives (hashlib.md5, hashlib.sha256, ...) are external library
code; they are modelled abstractly as `DigestAlgo`: a function from byte
sequences to hex-digest strings together with hashlib's documented
guarantees (fixed native output length, lowercase hexadecimal output).
Everything the repository itself does — chunked streaming, progress
reporting, combining, validation, history — is translated from the source.
-/

/-- The sixteen lowercase hexadecimal digit characters. -/
def hexDigits : List Char := "0123456789abcdef".data

/-- A string consisting only of lowercase hexadecimal digits. -/
def LowercaseHex (s : String) : Prop := ∀ c ∈ s.data, c ∈ hexDigits

instance (s : String) : Decidable (LowercaseHex s) := by
  unfold LowercaseHex; infer_instance

/-- Python's `str.lower()` restricted to ASCII, which is all the engine
ever lowercases (hex digests). -/
def pyLower (s : String) : String := ⟨s.data.map Char.toLower⟩

/-- UTF-8 encoding of one code point, as performed by Python's
`str.encode('utf-8')`. -/
def utf8EncodeChar (c : Char) : List Nat :=
  let n := c.toNat
  if n < 128 then [n]
  else if n < 2048 then [192 + n / 64, 128 + n % 64]
  else if n < 65536 then [224 + n / 4096, 128 + (n / 64) % 64, 128 + n % 64]
  else [240 + n / 262144, 128 + (n / 4096) % 64, 128 + (n / 64) % 64, 128 + n % 64]

/-- UTF-8 byte sequence of a string (`str.encode('utf-8')`). -/
def strUtf8 (s : String) : List Nat := (s.data.map utf8EncodeChar).flatten

/-- An abstract streaming digest primitive, as documented by `hashlib`:
a digest of a byte sequence is a lowercase hex string of the algorithm's
fixed native length. -/
structure DigestAlgo where
  hexLen : Nat
  digestFn : List Nat → String
  length_digestFn : ∀ data, (digestFn data).length = hexLen
  lower_digestFn : ∀ data, LowercaseHex (digestFn data)

/-- The `hashlib` primitives used by `config.HASH_ALGORITHMS`, with their
documented native hex-digest lengths. -/
structure Hashlib where
  md5 : DigestAlgo
  sha1 : DigestAlgo
  sha224 : DigestAlgo
  sha256 : DigestAlgo
  sha384 : DigestAlgo
  sha512 : DigestAlgo
  sha3_256 : DigestAlgo
  sha3_512 : DigestAlgo
  blake2b : DigestAlgo
  blake2s : DigestAlgo
  md5_hexLen : md5.hexLen = 32
  sha1_hexLen : sha1.hexLen = 40
  sha224_hexLen : sha224.hexLen = 56
  sha256_hexLen : sha256.hexLen = 64
  sha384_hexLen : sha384.hexLen = 96
  sha512_hexLen : sha512.hexLen = 128
  sha3_256_hexLen : sha3_256.hexLen = 64
  sha3_512_hexLen : sha3_512.hexLen = 128
  blake2b_hexLen : blake2b.hexLen = 128
  blake2s_hexLen : blake2s.hexLen = 64

/-- `config.HASH_ALGORITHMS`: the registry, in its insertion order. -/
def HASH_ALGORITHMS (H : Hashlib) : List (String × DigestAlgo) :=
  [("MD5", H.md5), ("SHA-1", H.sha1), ("SHA-224", H.sha224), ("SHA-256", H.sha256),
   ("SHA-384", H.sha384), ("SHA-512", H.sha512), ("SHA3-256", H.sha3_256),
   ("SHA3-512", H.sha3_512), ("BLAKE2b", H.blake2b), ("BLAKE2s", H.blake2s)]

/-- `config.CHUNK_SIZE`. -/
def CHUNK_SIZE : Nat := 8192

/-- `config.MAX_FILE_SIZE_BYTES` (sizes are Python ints). -/
def MAX_FILE_SIZE_BYTES : Int := 1073741824

/-- `config.MAX_FILES_ALLOWED`. -/
def MAX_FILES_ALLOWED : Int := 5

/-- `config.MIN_FILES_REQUIRED`. -/
def MIN_FILES_REQUIRED : Int := 1

/-- `config.DEFAULT_ALGORITHM`. -/
def DEFAULT_ALGORITHM : String := "SHA-256"

/-- `config.get_max_file_size_display()`: formats 1073741824 bytes as
`"1GB"` (`1073741824 / 1024**3 = 1.0`, formatted with `:.0f`). -/
def get_max_file_size_display : String := "1GB"

/-- A live hash object: the algorithm plus the bytes absorbed so far
(`hashlib` contexts are extensional in the absorbed byte stream:
`update(a); update(b)` is `update(a ++ b)`). -/
structure HashObject where
  algo : DigestAlgo
  absorbed : List Nat

/-- `hash_obj.update(chunk)`. -/
def HashObject.update (o : HashObject) (chunk : List Nat) : HashObject :=
  { o with absorbed := o.absorbed ++ chunk }

/-- `hash_obj.hexdigest()`. -/
def HashObject.hexdigest (o : HashObject) : String := o.algo.digestFn o.absorbed

/-- `FileHasher` (its only state is `chunk_size`). -/
structure FileHasher where
  chunk_size : Nat := CHUNK_SIZE

/-- The loop indices `range(0, total_size, chunk_size)` of Python's
`range` builtin (for a positive step, the indices `0, step, 2*step, ...`
below `total_size`; their count is `(total_size + step - 1) / step`). -/
def pyRangeStep (stop step : Nat) : List Nat :=
  List.range' 0 ((stop + step - 1) / step) step

/-- The chunks `file_data[i:i + chunk_size]` visited by the loop in
`FileHasher.calculate_hashes`; the slice `l[i:i+c]` is `(l.drop i).take c`. -/
def chunksOf (c : Nat) (data : List Nat) : List (List Nat) :=
  (pyRangeStep data.length c).map (fun i => (data.drop i).take c)

/-- State threaded through the chunk loop of `calculate_hashes`: the hash
objects, the `bytes_processed` counter, and the trace of
`progress_callback(bytes_processed, total_size)` invocations. -/
structure LoopState where
  objects : List (String × HashObject)
  bytes_processed : Nat
  progress_events : List (Nat × Nat)

/-- One iteration of the chunk loop: update every hash object with the
chunk, advance `bytes_processed`, record the progress invocation. -/
def hashStep (total_size : Nat) (st : LoopState) (chunk : List Nat) : LoopState :=
  { objects := st.objects.map (fun p => (p.1, p.2.update chunk)),
    bytes_processed := st.bytes_processed + chunk.length,
    progress_events := st.progress_events ++ [(st.bytes_processed + chunk.length, total_size)] }

/-- The whole chunk loop of `FileHasher.calculate_hashes`, starting from
freshly constructed hash objects (`{name: algo() for ...}`). -/
def FileHasher.hashRun (h : FileHasher) (file_data : List Nat)
    (algorithms : List (String × DigestAlgo)) : LoopState :=
  (chunksOf h.chunk_size file_data).foldl (hashStep file_data.length)
    { objects := algorithms.map (fun p => (p.1, ⟨p.2, []⟩)),
      bytes_processed := 0,
      progress_events := [] }

/-- `FileHasher.calculate_hashes`: final `{name: hash_obj.hexdigest()}`. -/
def FileHasher.calculate_hashes (h : FileHasher) (file_data : List Nat)
    (algorithms : List (String × DigestAlgo)) : List (String × String) :=
  (h.hashRun file_data algorithms).objects.map (fun p => (p.1, p.2.hexdigest))

/-- The sequence of `progress_callback` invocations made by
`calculate_hashes` when a callback is supplied. -/
def FileHasher.progressEvents (h : FileHasher) (file_data : List Nat)
    (algorithms : List (String × DigestAlgo)) : List (Nat × Nat) :=
  (h.hashRun file_data algorithms).progress_events

/-- Lexicographic comparison of character lists by code point,
`as <= bs`. -/
def charListLe : List Char → List Char → Bool
  | [], _ => true
  | _ :: _, [] => false
  | a :: as, b :: bs =>
      if a.toNat < b.toNat then true
      else if b.toNat < a.toNat then false
      else charListLe as bs

/-- Python's `<=` on strings: lexicographic by code point. -/
def strLe (a b : String) : Prop := charListLe a.data b.data = true

instance : DecidableRel strLe := fun a b =>
  inferInstanceAs (Decidable (charListLe a.data b.data = true))

/-- Python's `sorted` on a list of strings: ascending lexicographic
(code-point) order, realized as an insertion sort. -/
def sortStrings (l : List String) : List String := List.insertionSort strLe l

/-- Python dict access `individual_hashes[algo]` for a key known to be
present, on the association-list model of the dict. -/
def lookupStr (m : List (String × String)) (k : String) : String :=
  (m.lookup k).getD ""

/-- `FileHasher.calculate_combined_hash`: on a map with at most one entry
returns `None`; otherwise sorts the keys, concatenates the corresponding
digests, and digests the UTF-8 bytes of the concatenation with
`algorithm`, silently falling back to `'SHA-256'` when `algorithm` is not
registered. -/
def FileHasher.calculate_combined_hash (H : Hashlib)
    (individual_hashes : List (String × String))
    (algorithm : String := "SHA-256") : Option String :=
  if individual_hashes.length ≤ 1 then none
  else
    let sorted_algos := sortStrings (individual_hashes.map Prod.fst)
    let concatenated := String.join (sorted_algos.map (lookupStr individual_hashes))
    let algorithm := if ((HASH_ALGORITHMS H).lookup algorithm).isSome
      then algorithm else "SHA-256"
    let hasher := ((HASH_ALGORITHMS H).lookup algorithm).getD H.sha256
    some (hasher.digestFn (strUtf8 concatenated))

/-- The combiner algorithm actually used, as the spec words it: the one
the caller named when registered, else SHA-256. -/
def combinerOf (H : Hashlib) (a : String) : DigestAlgo :=
  match (HASH_ALGORITHMS H).lookup a with
  | some g => g
  | none => H.sha256

/-- The Combiner contract as §4.4 of the spec words it: absent on a
one-or-zero-entry map; otherwise one digest, under the combiner
algorithm, of the UTF-8 bytes of the digest values concatenated in
lexicographically sorted key order. -/
def combineSpec (H : Hashlib) (M : List (String × String)) (a : String) : Option String :=
  if M.length ≤ 1 then none
  else some ((combinerOf H a).digestFn
    (strUtf8 (String.join ((sortStrings (M.map Prod.fst)).map (lookupStr M)))))

/-- `FileHasher.verify_hash`: `ValueError` for an unregistered algorithm
name, else case-insensitive comparison of the computed digest with the
expected one. -/
def FileHasher.verify_hash (H : Hashlib) (file_data : List Nat)
    (algorithm_name : String) (expected_hash : String) : Except String Bool :=
  match (HASH_ALGORITHMS H).lookup algorithm_name with
  | none => Except.error ("Unknown algorithm: " ++ algorithm_name)
  | some algo =>
      Except.ok (pyLower (algo.digestFn file_data) == pyLower expected_hash)

/-- `FileValidator.validate_file_size` (sizes are Python ints). -/
def FileValidator.validate_file_size (size : Int) : Bool × String :=
  if size > MAX_FILE_SIZE_BYTES then
    (false, "File size exceeds " ++ get_max_file_size_display ++ " limit")
  else if size = 0 then
    (false, "File is empty")
  else
    (true, "")

/-- `FileValidator.validate_file_count` (counts are Python ints). -/
def FileValidator.validate_file_count (count : Int) : Bool × String :=
  if count < MIN_FILES_REQUIRED then
    (false, "Please upload at least 1 file(s)")
  else if count > MAX_FILES_ALLOWED then
    (false, "Maximum 5 files allowed")
  else
    (true, "")

/-- A history entry as built by `HashResultFormatter.create_history_entry`. -/
structure HistoryEntry where
  file_name : String
  file_size : Nat
  file_size_formatted : String
  hashes : List (String × String)
  combined_hash : Option String
  timestamp : String

/-- `HashResultFormatter.create_history_entry` with an explicit timestamp. -/
def create_history_entry (file_name : String) (file_size : Nat)
    (file_size_formatted : String) (hashes : List (String × String))
    (combined_hash : Option String) (timestamp : String) : HistoryEntry :=
  { file_name := file_name, file_size := file_size,
    file_size_formatted := file_size_formatted, hashes := hashes,
    combined_hash := combined_hash, timestamp := timestamp }

/-- `st.session_state[HISTORY].append(entry)` in `process_files`. -/
def historyAppend (history : List HistoryEntry) (entry : HistoryEntry) : List HistoryEntry :=
  history ++ [entry]

/-- `st.session_state[HISTORY] = []` on the Clear History button in
`render_main_page`. -/
def historyClear (_history : List HistoryEntry) : List HistoryEntry := []

/-- The character for one hex digit value below 16. -/
def hexDigitChar (n : Nat) : Char :=
  match n with
  | 0 => '0' | 1 => '1' | 2 => '2' | 3 => '3' | 4 => '4' | 5 => '5'
  | 6 => '6' | 7 => '7' | 8 => '8' | 9 => '9' | 10 => 'a' | 11 => 'b'
  | 12 => 'c' | 13 => 'd' | 14 => 'e' | _ => 'f'

/-- Fixed-width big-endian hex rendering of a natural number. -/
def toHexFixed : Nat → Nat → List Char
  | 0, _ => []
  | w + 1, v => toHexFixed w (v / 16) ++ [hexDigitChar (v % 16)]

/-- An executable stand-in digest primitive of a given hex length, used
only to instantiate theorems at concrete inputs. -/
def mkDigestAlgo (n : Nat) : DigestAlgo where
  hexLen := n
  digestFn := fun data => ⟨toHexFixed n (data.foldl (fun a b => a + 17 * b) data.length)⟩
  length_digestFn := fun data => by
    show (toHexFixed n _).length = n
    generalize (data.foldl (fun a b => a + 17 * b) data.length) = v
    induction n generalizing v with
    | zero => rfl
    | succ w ih => simp [toHexFixed, ih]
  lower_digestFn := fun data => by
    intro c hc
    show c ∈ hexDigits
    revert hc
    show c ∈ toHexFixed n _ → c ∈ hexDigits
    generalize (data.foldl (fun a b => a + 17 * b) data.length) = v
    induction n generalizing v with
    | zero => intro hc; simp [toHexFixed] at hc
    | succ w ih =>
        intro hc
        simp only [toHexFixed, List.mem_append, List.mem_singleton] at hc
        rcases hc with hc | hc
        · exact ih _ hc
        · subst hc
          unfold hexDigitChar
          split <;> decide

/-- A concrete `Hashlib` instance for evaluating theorems at concrete
inputs. -/
def testHashlib : Hashlib where
  md5 := mkDigestAlgo 32
  sha1 := mkDigestAlgo 40
  sha224 := mkDigestAlgo 56
  sha256 := mkDigestAlgo 64
  sha384 := mkDigestAlgo 96
  sha512 := mkDigestAlgo 128
  sha3_256 := mkDigestAlgo 64
  sha3_512 := mkDigestAlgo 128
  blake2b := mkDigestAlgo 128
  blake2s := mkDigestAlgo 64
  md5_hexLen := rfl
  sha1_hexLen := rfl
  sha224_hexLen := rfl
  sha256_hexLen := rfl
  sha384_hexLen := rfl
  sha512_hexLen := rfl
  sha3_256_hexLen := rfl
  sha3_512_hexLen := rfl
  blake2b_hexLen := rfl
  blake2s_hexLen := rfl

/-- Cumulative progress events generated by the chunk loop starting from
`bytes_processed = b`. -/
def cumEvents (t : Nat) : Nat → List (List Nat) → List (Nat × Nat)
  | _, [] => []
  | b, ch :: chs => (b + ch.length, t) :: cumEvents t (b + ch.length) chs

theorem chunksOf_nil (c : Nat) : chunksOf c [] = [] := by
  rcases Nat.eq_zero_or_pos c with h | h
  · subst h; rfl
  · simp [chunksOf, pyRangeStep, Nat.div_eq_of_lt (by omega : 0 + c - 1 < c),
      Nat.div_eq_of_lt (by omega : c - 1 < c)]

theorem ceil_div_pos (c N : Nat) (hc : 0 < c) (hN : 0 < N) :
    (N + c - 1) / c = (N - 1) / c + 1 := by
  have h : N + c - 1 = (N - 1) + c := by omega
  rw [h, Nat.add_div_right _ hc]

theorem chunksOf_cons (c : Nat) (data : List Nat) (hc : 0 < c) (hd : data ≠ []) :
    chunksOf c data = data.take c :: chunksOf c (data.drop c) := by
  have hN : 0 < data.length := List.length_pos.mpr hd
  have hm : ((data.drop c).length + c - 1) / c = (data.length - 1) / c := by
    rw [List.length_drop]
    rcases le_or_lt data.length c with h | h
    · have h1 : data.length - c = 0 := by omega
      rw [h1, Nat.div_eq_of_lt (by omega : 0 + c - 1 < c),
        Nat.div_eq_of_lt (by omega : data.length - 1 < c)]
    · have h2 : (data.length - c + c - 1) / c = (data.length - c - 1) / c + 1 :=
        ceil_div_pos c _ hc (by omega)
      have h3 : (data.length - 1) / c = (data.length - 1 - c) / c + 1 :=
        Nat.div_eq_sub_div hc (by omega)
      have h4 : data.length - c - 1 = data.length - 1 - c := by omega
      rw [h2, h3, h4]
  unfold chunksOf pyRangeStep
  rw [ceil_div_pos c data.length hc hN, List.range'_succ, List.map_cons, List.drop_zero, hm]
  congr 1
  rw [Nat.zero_add]
  have hshift : List.range' c ((data.length - 1) / c) c
      = (List.range' 0 ((data.length - 1) / c) c).map (c + ·) := by
    rw [List.map_add_range', Nat.add_zero]
  rw [hshift, List.map_map]
  apply List.map_congr_left
  intro i _
  simp [Function.comp, List.drop_drop, Nat.add_comm]

theorem flatten_chunksOf (c : Nat) (hc : 0 < c) (data : List Nat) :
    (chunksOf c data).flatten = data := by
  by_cases hd : data = []
  · subst hd; rw [chunksOf_nil]; rfl
  · rw [chunksOf_cons c data hc hd, List.flatten_cons,
      flatten_chunksOf c hc (data.drop c), List.take_append_drop]
termination_by data.length
decreasing_by
  simp only [List.length_drop]
  have := List.length_pos.mpr hd
  omega

theorem length_chunksOf (c : Nat) (data : List Nat) :
    (chunksOf c data).length = (data.length + c - 1) / c := by
  simp [chunksOf, pyRangeStep]

theorem foldl_hashStep_objects (t : Nat) (chunks : List (List Nat)) :
    ∀ (objs : List (String × HashObject)) (b : Nat) (ev : List (Nat × Nat)),
      (chunks.foldl (hashStep t) ⟨objs, b, ev⟩).objects
        = objs.map (fun p => (p.1, p.2.update chunks.flatten)) := by
  induction chunks with
  | nil =>
      intro objs b ev
      simp only [List.foldl_nil, List.flatten_nil]
      simp [HashObject.update]
  | cons ch chs ih =>
      intro objs b ev
      simp only [List.foldl_cons, hashStep]
      rw [ih]
      simp [HashObject.update, List.map_map, Function.comp, List.append_assoc]

theorem foldl_hashStep_progress (t : Nat) (chunks : List (List Nat)) :
    ∀ (objs : List (String × HashObject)) (b : Nat) (ev : List (Nat × Nat)),
      (chunks.foldl (hashStep t) ⟨objs, b, ev⟩).progress_events
        = ev ++ cumEvents t b chunks := by
  induction chunks with
  | nil => intro objs b ev; simp [cumEvents]
  | cons ch chs ih =>
      intro objs b ev
      simp only [List.foldl_cons, hashStep]
      rw [ih]
      simp [cumEvents]

theorem cumEvents_length (t : Nat) (chunks : List (List Nat)) :
    ∀ b, (cumEvents t b chunks).length = chunks.length := by
  induction chunks with
  | nil => intro b; rfl
  | cons ch chs ih => intro b; simp [cumEvents, ih]

theorem cumEvents_total (t : Nat) (chunks : List (List Nat)) :
    ∀ b, ∀ e ∈ cumEvents t b chunks, e.2 = t := by
  induction chunks with
  | nil => intro b e he; simp [cumEvents] at he
  | cons ch chs ih =>
      intro b e he
      simp only [cumEvents, List.mem_cons] at he
      rcases he with he | he
      · subst he; rfl
      · exact ih _ e he

theorem cumEvents_chunksOf_get (c : Nat) (hc : 0 < c) (t : Nat) (data : List Nat) :
    ∀ (b i : Nat), i < (cumEvents t b (chunksOf c data)).length →
      (cumEvents t b (chunksOf c data))[i]?
        = some (b + min ((i + 1) * c) data.length, t) := by
  by_cases hd : data = []
  · intro b i hi
    rw [hd, chunksOf_nil] at hi
    simp [cumEvents] at hi
  · intro b i hi
    rw [chunksOf_cons c data hc hd] at hi ⊢
    match i with
    | 0 =>
        simp only [cumEvents, List.getElem?_cons_zero, Option.some.injEq, Prod.mk.injEq,
          List.length_take]
        exact ⟨by omega, trivial⟩
    | Nat.succ j =>
        have hj : j < (cumEvents t (b + (data.take c).length)
            (chunksOf c (data.drop c))).length := by
          simp only [cumEvents, List.length_cons] at hi
          omega
        have ih := cumEvents_chunksOf_get c hc t (data.drop c)
          (b + (data.take c).length) j hj
        simp only [cumEvents, List.getElem?_cons_succ]
        rw [ih]
        simp only [List.length_take, List.length_drop, Option.some.injEq, Prod.mk.injEq]
        refine ⟨?_, trivial⟩
        have hmul : (j + 1 + 1) * c = (j + 1) * c + c := by ring
        rw [hmul]
        omega
termination_by data.length
decreasing_by
  simp only [List.length_drop]
  have := List.length_pos.mpr hd
  omega

theorem hashRun_objects_eq (c : Nat) (hc : 0 < c) (data : List Nat)
    (algorithms : List (String × DigestAlgo)) :
    (FileHasher.hashRun ⟨c⟩ data algorithms).objects
      = algorithms.map (fun p => (p.1, ⟨p.2, data⟩)) := by
  unfold FileHasher.hashRun
  rw [foldl_hashStep_objects, flatten_chunksOf c hc data]
  simp [HashObject.update, List.map_map, Function.comp]

theorem calculate_hashes_eq (c : Nat) (hc : 0 < c) (data : List Nat)
    (algorithms : List (String × DigestAlgo)) :
    FileHasher.calculate_hashes ⟨c⟩ data algorithms
      = algorithms.map (fun p => (p.1, p.2.digestFn data)) := by
  unfold FileHasher.calculate_hashes
  rw [hashRun_objects_eq c hc data algorithms]
  simp [HashObject.hexdigest, List.map_map, Function.comp]

theorem progressEvents_eq (c : Nat) (data : List Nat)
    (algorithms : List (String × DigestAlgo)) :
    FileHasher.progressEvents ⟨c⟩ data algorithms
      = cumEvents data.length 0 (chunksOf c data) := by
  unfold FileHasher.progressEvents FileHasher.hashRun
  rw [foldl_hashStep_progress]
  simp

theorem progressEvents_get (c : Nat) (hc : 0 < c) (data : List Nat)
    (algorithms : List (String × DigestAlgo)) (i : Nat)
    (hi : i < (FileHasher.progressEvents ⟨c⟩ data algorithms).length) :
    (FileHasher.progressEvents ⟨c⟩ data algorithms)[i]?
      = some (min ((i + 1) * c) data.length, data.length) := by
  rw [progressEvents_eq] at hi ⊢
  have := cumEvents_chunksOf_get c hc data.length data 0 i hi
  simpa using this

theorem progressEvents_length (c : Nat) (data : List Nat)
    (algorithms : List (String × DigestAlgo)) :
    (FileHasher.progressEvents ⟨c⟩ data algorithms).length
      = (data.length + c - 1) / c := by
  rw [progressEvents_eq, cumEvents_length, length_chunksOf]

theorem ceil_mul_ge (c N : Nat) (hc : 0 < c) : N ≤ ((N + c - 1) / c) * c := by
  rcases Nat.eq_zero_or_pos N with h | h
  · simp [h]
  · rw [ceil_div_pos c N hc h]
    have hdm := Nat.div_add_mod (N - 1) c
    have hmod : (N - 1) % c < c := Nat.mod_lt _ hc
    have hexp : ((N - 1) / c + 1) * c = c * ((N - 1) / c) + c := by ring
    omega

/-- `List.lookup` is invariant under permutation when keys are distinct. -/
theorem lookup_eq_of_perm (k : String) (M₁ M₂ : List (String × String))
    (hperm : M₁.Perm M₂) (hnd : (M₁.map Prod.fst).Nodup) :
    M₁.lookup k = M₂.lookup k := by
  induction hperm with
  | nil => rfl
  | cons x h ih =>
      obtain ⟨xk, xv⟩ := x
      simp only [List.map_cons, List.nodup_cons] at hnd
      rw [List.lookup_cons, List.lookup_cons, ih hnd.2]
  | swap x y l =>
      obtain ⟨xk, xv⟩ := x
      obtain ⟨yk, yv⟩ := y
      simp only [List.map_cons, List.nodup_cons, List.mem_cons] at hnd
      have hne : yk ≠ xk := fun h => hnd.1 (Or.inl h)
      rw [List.lookup_cons, List.lookup_cons, List.lookup_cons, List.lookup_cons]
      cases hx : k == xk <;> cases hy : k == yk <;> simp only
      have hkx : k = xk := by simpa using hx
      have hky : k = yk := by simpa using hy
      exact absurd (hky.symm.trans hkx) hne
  | trans h₁ h₂ ih₁ ih₂ =>
      rw [ih₁ hnd, ih₂ (((h₁.map Prod.fst).nodup_iff).mp hnd)]

theorem charListLe_total : ∀ as bs, charListLe as bs = true ∨ charListLe bs as = true := by
  intro as
  induction as with
  | nil => intro bs; left; rfl
  | cons a as ih =>
      intro bs
      cases bs with
      | nil => right; rfl
      | cons b bs =>
          by_cases h1 : a.toNat < b.toNat
          · left; simp [charListLe, h1]
          · by_cases h2 : b.toNat < a.toNat
            · right; simp [charListLe, h1, h2]
            · rcases ih bs with h | h
              · left; simp [charListLe, h1, h2, h]
              · right; simp [charListLe, h1, h2, h]

theorem charListLe_trans : ∀ as bs cs, charListLe as bs = true → charListLe bs cs = true →
    charListLe as cs = true := by
  intro as
  induction as with
  | nil => intro bs cs _ _; rfl
  | cons a as ih =>
      intro bs cs h1 h2
      cases bs with
      | nil => simp [charListLe] at h1
      | cons b bs =>
          cases cs with
          | nil => simp [charListLe] at h2
          | cons c cs =>
              simp only [charListLe] at h1 h2 ⊢
              split_ifs at h1 h2 ⊢ <;> first
                | rfl
                | omega
                | (exact ih bs cs h1 h2)

theorem charListLe_antisymm : ∀ as bs, charListLe as bs = true → charListLe bs as = true →
    as = bs := by
  intro as
  induction as with
  | nil =>
      intro bs h1 h2
      cases bs with
      | nil => rfl
      | cons b bs => simp [charListLe] at h2
  | cons a as ih =>
      intro bs h1 h2
      cases bs with
      | nil => simp [charListLe] at h1
      | cons b bs =>
          simp only [charListLe] at h1 h2
          split_ifs at h1 h2 <;> try omega
          rename_i hab hba
          have hc : a = b := by
            rw [← Char.ofNat_toNat a, ← Char.ofNat_toNat b]
            congr 1
            omega
          rw [hc, ih bs h1 h2]

instance : IsTotal String strLe := ⟨fun a b => charListLe_total a.data b.data⟩

instance : IsTrans String strLe :=
  ⟨fun a b c h1 h2 => charListLe_trans a.data b.data c.data h1 h2⟩

instance : IsAntisymm String strLe :=
  ⟨fun a b h1 h2 => by
    have := charListLe_antisymm a.data b.data h1 h2
    cases a; cases b; exact congrArg String.mk this⟩

theorem sortStrings_sorted (l : List String) : List.Sorted strLe (sortStrings l) :=
  List.sorted_insertionSort strLe l

theorem sortStrings_perm (l : List String) : (sortStrings l).Perm l :=
  List.perm_insertionSort strLe l

theorem sortStrings_eq_of_perm (l₁ l₂ : List String) (h : l₁.Perm l₂) :
    sortStrings l₁ = sortStrings l₂ :=
  List.eq_of_perm_of_sorted
    ((sortStrings_perm l₁).trans (h.trans (sortStrings_perm l₂).symm))
    (sortStrings_sorted l₁) (sortStrings_sorted l₂)

theorem toLower_hexDigit : ∀ c ∈ hexDigits, c.toLower = c := by decide

theorem pyLower_of_lowercaseHex (s : String) (h : LowercaseHex s) : pyLower s = s := by
  unfold pyLower
  have hmap : s.data.map Char.toLower = s.data :=
    (List.map_congr_left fun c hc => toLower_hexDigit c (h c hc)).trans (List.map_id s.data)
  rw [hmap]

theorem lookup_registry_sha256 (H : Hashlib) :
    (HASH_ALGORITHMS H).lookup "SHA-256" = some H.sha256 := rfl

theorem lookup_registry_md5 (H : Hashlib) :
    (HASH_ALGORITHMS H).lookup "MD5" = some H.md5 := rfl

theorem lookup_registry_sha512 (H : Hashlib) :
    (HASH_ALGORITHMS H).lookup "SHA-512" = some H.sha512 := rfl

/-- C1: for every payload and every algorithm set, `calculate_hashes` with
any positive chunk size returns, per algorithm, exactly the one-pass hex
digest of the payload; chunk size 1 and a single all-covering chunk give
the same result, and every digest context ends having absorbed exactly
the payload's bytes in order. -/
theorem claim_C1_chunking_transparent (c : Nat) (hc : 0 < c) (data : List Nat)
    (algorithms : List (String × DigestAlgo)) :
    FileHasher.calculate_hashes ⟨c⟩ data algorithms
        = algorithms.map (fun p => (p.1, p.2.digestFn data))
      ∧ FileHasher.calculate_hashes ⟨c⟩ data algorithms
        = FileHasher.calculate_hashes ⟨1⟩ data algorithms
      ∧ FileHasher.calculate_hashes ⟨c⟩ data algorithms
        = FileHasher.calculate_hashes ⟨data.length + 1⟩ data algorithms
      ∧ (FileHasher.hashRun ⟨c⟩ data algorithms).objects
        = algorithms.map (fun p => (p.1, ⟨p.2, data⟩)) := by
  refine ⟨calculate_hashes_eq c hc data algorithms, ?_, ?_,
    hashRun_objects_eq c hc data algorithms⟩
  · rw [calculate_hashes_eq c hc, calculate_hashes_eq 1 (by omega)]
  · rw [calculate_hashes_eq c hc, calculate_hashes_eq (data.length + 1) (by omega)]

/-- Witness for C1 at chunk size 2 on a 3-byte payload. -/
theorem claim_C1_witness :
    0 < 2
      ∧ FileHasher.calculate_hashes ⟨2⟩ [7, 8, 9] [("MD5", testHashlib.md5)]
        = [("MD5", testHashlib.md5.digestFn [7, 8, 9])] :=
  ⟨by decide, (claim_C1_chunking_transparent 2 (by decide) [7, 8, 9]
    [("MD5", testHashlib.md5)]).1⟩

/-- C3: with chunk size `c > 0` on a payload of `N` bytes, the progress
callback is invoked once per chunk, `ceil(N/c)` times in total, the i-th
invocation reporting `(min((i+1)*c, N), N)`; reported processed values
are monotonically non-decreasing, never exceed `N`, and the last
invocation (when `N > 0`) reports `(N, N)`. -/
theorem claim_C3_progress_callback (c : Nat) (hc : 0 < c) (data : List Nat)
    (algorithms : List (String × DigestAlgo)) :
    (FileHasher.progressEvents ⟨c⟩ data algorithms).length
        = (data.length + c - 1) / c
      ∧ (∀ i, i < (FileHasher.progressEvents ⟨c⟩ data algorithms).length →
          (FileHasher.progressEvents ⟨c⟩ data algorithms)[i]?
            = some (min ((i + 1) * c) data.length, data.length))
      ∧ (∀ e ∈ FileHasher.progressEvents ⟨c⟩ data algorithms,
          e.2 = data.length ∧ e.1 ≤ data.length)
      ∧ List.Chain' (fun a b => a.1 ≤ b.1)
          (FileHasher.progressEvents ⟨c⟩ data algorithms)
      ∧ (0 < data.length →
          (FileHasher.progressEvents ⟨c⟩ data algorithms).getLast?
            = some (data.length, data.length)) := by
  refine ⟨progressEvents_length c data algorithms,
    fun i hi => progressEvents_get c hc data algorithms i hi, ?_, ?_, ?_⟩
  · intro e he
    obtain ⟨i, hi, hei⟩ := List.getElem_of_mem he
    have hq := progressEvents_get c hc data algorithms i hi
    rw [List.getElem?_eq_getElem hi, hei] at hq
    obtain rfl := Option.some.inj hq
    exact ⟨rfl, min_le_right _ _⟩
  · rw [List.chain'_iff_get]
    intro i hlt
    have h1 := progressEvents_get c hc data algorithms i (by omega)
    have h2 := progressEvents_get c hc data algorithms (i + 1) (by omega)
    rw [List.getElem?_eq_getElem (by omega)] at h1 h2
    simp only [List.get_eq_getElem]
    rw [Option.some.inj h1, Option.some.inj h2]
    exact min_le_min (Nat.mul_le_mul_right c (by omega)) le_rfl
  · intro hN
    have hpos : 0 < (FileHasher.progressEvents ⟨c⟩ data algorithms).length := by
      rw [progressEvents_length, ceil_div_pos c data.length hc hN]
      exact Nat.succ_pos _
    have hq := progressEvents_get c hc data algorithms
      ((FileHasher.progressEvents ⟨c⟩ data algorithms).length - 1) (by omega)
    rw [List.getLast?_eq_getElem?]
    rw [hq, Nat.sub_add_cancel hpos, progressEvents_length]
    have hge := ceil_mul_ge c data.length hc
    rw [Nat.min_eq_right hge]

/-- Witness for C3: two chunks of size 2 over 3 bytes; the final report
is `(3, 3)`. -/
theorem claim_C3_witness :
    0 < 2 ∧ 0 < ([5, 6, 7] : List Nat).length
      ∧ (FileHasher.progressEvents ⟨2⟩ [5, 6, 7] [("MD5", testHashlib.md5)]).getLast?
        = some (3, 3) :=
  ⟨by decide, by decide, (claim_C3_progress_callback 2 (by decide) [5, 6, 7]
    [("MD5", testHashlib.md5)]).2.2.2.2 (by decide)⟩

/-- C7: the empty payload is not rejected: every requested algorithm's
context is finalized and the result maps each requested algorithm to its
digest of the empty input (and is non-empty when the request is). -/
theorem claim_C7_empty_payload (c : Nat) (hc : 0 < c)
    (algorithms : List (String × DigestAlgo)) (hne : algorithms ≠ []) :
    FileHasher.calculate_hashes ⟨c⟩ [] algorithms
        = algorithms.map (fun p => (p.1, p.2.digestFn []))
      ∧ FileHasher.calculate_hashes ⟨c⟩ [] algorithms ≠ [] := by
  have h := calculate_hashes_eq c hc [] algorithms
  refine ⟨h, ?_⟩
  rw [h]
  simpa using hne

/-- Witness for C7 with the default chunk size. -/
theorem claim_C7_witness :
    0 < 8192
      ∧ FileHasher.calculate_hashes ⟨8192⟩ [] [("SHA-256", testHashlib.sha256)]
        = [("SHA-256", testHashlib.sha256.digestFn [])] :=
  ⟨by decide, (claim_C7_empty_payload 8192 (by decide)
    [("SHA-256", testHashlib.sha256)] (List.cons_ne_nil _ _)).1⟩

/-- C2: `calculate_combined_hash` returns `None` on a map with at most one
entry; on two or more entries it returns the digest, under the requested
combiner (default SHA-256, silently substituting SHA-256 for an
unregistered id), of the UTF-8 bytes of the digest values concatenated in
sorted key order — and the result is a lowercase hex string of the
combiner's native length. -/
theorem claim_C2_combined_hash (H : Hashlib) (M : List (String × String)) (a : String) :
    (M.length ≤ 1 → FileHasher.calculate_combined_hash H M a = none)
      ∧ FileHasher.calculate_combined_hash H M a = combineSpec H M a
      ∧ combinerOf H "SHA-256" = H.sha256
      ∧ ((HASH_ALGORITHMS H).lookup a = none → combinerOf H a = H.sha256)
      ∧ (∀ d, FileHasher.calculate_combined_hash H M a = some d →
          LowercaseHex d ∧ d.length = (combinerOf H a).hexLen) := by
  have hcomb : FileHasher.calculate_combined_hash H M a = combineSpec H M a := by
    simp only [FileHasher.calculate_combined_hash, combineSpec, combinerOf]
    by_cases hl : M.length ≤ 1
    · simp [hl]
    · simp only [hl, if_false]
      cases hlk : (HASH_ALGORITHMS H).lookup a with
      | some g => simp [hlk]
      | none => simp [hlk, lookup_registry_sha256 H]
  refine ⟨?_, hcomb, ?_, ?_, ?_⟩
  · intro hl
    simp [FileHasher.calculate_combined_hash, hl]
  · unfold combinerOf
    rw [lookup_registry_sha256 H]
  · intro h
    unfold combinerOf
    rw [h]
  · intro d hd
    rw [hcomb] at hd
    unfold combineSpec at hd
    by_cases hl : M.length ≤ 1
    · simp [hl] at hd
    · simp only [hl, if_false, Option.some.injEq] at hd
      subst hd
      exact ⟨(combinerOf H a).lower_digestFn _, (combinerOf H a).length_digestFn _⟩

/-- Witness for C2: a two-entry map combined with an unregistered
combiner id falls back to SHA-256 over `"aabb"`. -/
theorem claim_C2_witness :
    FileHasher.calculate_combined_hash testHashlib [("MD5", "aa"), ("SHA-256", "bb")] "SHA-999"
      = some (testHashlib.sha256.digestFn (strUtf8 "aabb")) := by
  have h := (claim_C2_combined_hash testHashlib [("MD5", "aa"), ("SHA-256", "bb")] "SHA-999").2.1
  rw [h]
  decide

/-- C6: on maps with distinct keys, the combined hash depends only on the
set of (algorithm, digest) entries, not on their insertion order. -/
theorem claim_C6_permutation_invariant (H : Hashlib) (M₁ M₂ : List (String × String))
    (a : String) (hperm : M₁.Perm M₂) (hnd : (M₁.map Prod.fst).Nodup) :
    FileHasher.calculate_combined_hash H M₁ a
      = FileHasher.calculate_combined_hash H M₂ a := by
  simp only [FileHasher.calculate_combined_hash]
  rw [← hperm.length_eq]
  by_cases hl : M₁.length ≤ 1
  · simp [hl]
  · simp only [hl, if_false]
    have hkeys : sortStrings (M₁.map Prod.fst) = sortStrings (M₂.map Prod.fst) :=
      sortStrings_eq_of_perm _ _ (hperm.map Prod.fst)
    have hfun : lookupStr M₁ = lookupStr M₂ := by
      funext k
      unfold lookupStr
      rw [lookup_eq_of_perm k M₁ M₂ hperm hnd]
    rw [hkeys, hfun]

/-- Witness for C6: the same two entries in both insertion orders. -/
theorem claim_C6_witness :
    ([("MD5", "aa"), ("SHA-1", "bb")] : List (String × String)).Perm
        [("SHA-1", "bb"), ("MD5", "aa")]
      ∧ FileHasher.calculate_combined_hash testHashlib [("MD5", "aa"), ("SHA-1", "bb")] "SHA-256"
        = FileHasher.calculate_combined_hash testHashlib [("SHA-1", "bb"), ("MD5", "aa")] "SHA-256" :=
  ⟨by decide, claim_C6_permutation_invariant testHashlib _ _ "SHA-256" (by decide) (by decide)⟩

/-- C4 counterexample: the claim quantifies over every integer size, but
`validate_file_size` accepts every negative size (Python's checks
`size > max` and `size == 0` both fail on negatives), so "accepts exactly
when `0 < size <= max`" is false at `size = -1`. -/
theorem claim_C4_counterexample :
    (FileValidator.validate_file_size (-1)).1 = true ∧ ¬(0 < (-1 : Int)) := by
  constructor
  · decide
  · decide

/-- C4 amended: `validate_file_size` accepts exactly the sizes that are
at most the configured maximum (2^30 bytes) and non-zero; on non-negative
sizes this is exactly `0 < size <= max`. The maximum itself is accepted,
one byte over is rejected as too large, and zero is rejected as empty,
regardless of the ceiling. -/
theorem claim_C4_amended :
    (∀ size : Int, (FileValidator.validate_file_size size).1 = true
        ↔ (size ≤ MAX_FILE_SIZE_BYTES ∧ size ≠ 0))
      ∧ (∀ size : Int, 0 ≤ size →
          ((FileValidator.validate_file_size size).1 = true
            ↔ (0 < size ∧ size ≤ MAX_FILE_SIZE_BYTES)))
      ∧ (FileValidator.validate_file_size MAX_FILE_SIZE_BYTES).1 = true
      ∧ FileValidator.validate_file_size (MAX_FILE_SIZE_BYTES + 1)
          = (false, "File size exceeds 1GB limit")
      ∧ FileValidator.validate_file_size 0 = (false, "File is empty") := by
  have hiff : ∀ size : Int, (FileValidator.validate_file_size size).1 = true
      ↔ (size ≤ MAX_FILE_SIZE_BYTES ∧ size ≠ 0) := by
    intro size
    unfold FileValidator.validate_file_size MAX_FILE_SIZE_BYTES
    split_ifs with h1 h2 <;> simp_all <;> omega
  refine ⟨hiff, ?_, by decide, by decide, by decide⟩
  intro size hsize
  rw [hiff size]
  omega

/-- Witness for C4 amended at size 5. -/
theorem claim_C4_witness :
    (0 : Int) ≤ 5 ∧ (FileValidator.validate_file_size 5).1 = true :=
  ⟨by decide, ((claim_C4_amended.2.1 5 (by decide)).mpr (by decide))⟩

/-- C5 counterexample: the result's keys follow the request order, not
alphabetical order — requesting SHA-256 before MD5 yields keys
`["SHA-256", "MD5"]`, which is not ordered by algorithm name. -/
theorem claim_C5_counterexample :
    (FileHasher.calculate_hashes ⟨8192⟩ [1, 2, 3]
          [("SHA-256", mkDigestAlgo 64), ("MD5", mkDigestAlgo 32)]).map Prod.fst
        = ["SHA-256", "MD5"]
      ∧ sortStrings ["SHA-256", "MD5"] = ["MD5", "SHA-256"]
      ∧ ¬ List.Sorted strLe
          ((FileHasher.calculate_hashes ⟨8192⟩ [1, 2, 3]
            [("SHA-256", mkDigestAlgo 64), ("MD5", mkDigestAlgo 32)]).map Prod.fst) := by
  refine ⟨by decide, by decide, by decide⟩

/-- C5 amended: the DigestMap's keys are exactly the requested algorithm
identifiers in the order they were requested (not sorted by name), with
no duplicates whenever the request has none, and every value is the
lowercase hex digest of the payload with the algorithm's native hex
length; in the registry MD5, SHA-256 and SHA-512 carry native hex lengths
32, 64 and 128. -/
theorem claim_C5_amended (c : Nat) (hc : 0 < c) (data : List Nat)
    (algorithms : List (String × DigestAlgo)) :
    (FileHasher.calculate_hashes ⟨c⟩ data algorithms).map Prod.fst
        = algorithms.map Prod.fst
      ∧ ((algorithms.map Prod.fst).Nodup →
          ((FileHasher.calculate_hashes ⟨c⟩ data algorithms).map Prod.fst).Nodup)
      ∧ (∀ p ∈ FileHasher.calculate_hashes ⟨c⟩ data algorithms,
          ∃ algo, (p.1, algo) ∈ algorithms ∧ p.2 = algo.digestFn data
            ∧ p.2.length = algo.hexLen ∧ LowercaseHex p.2)
      ∧ (∀ H : Hashlib,
          (HASH_ALGORITHMS H).lookup "MD5" = some H.md5 ∧ H.md5.hexLen = 32
            ∧ (HASH_ALGORITHMS H).lookup "SHA-256" = some H.sha256
            ∧ H.sha256.hexLen = 64
            ∧ (HASH_ALGORITHMS H).lookup "SHA-512" = some H.sha512
            ∧ H.sha512.hexLen = 128) := by
  have hkeys : (FileHasher.calculate_hashes ⟨c⟩ data algorithms).map Prod.fst
      = algorithms.map Prod.fst := by
    rw [calculate_hashes_eq c hc data algorithms, List.map_map]
    rfl
  refine ⟨hkeys, fun hnd => hkeys ▸ hnd, ?_, ?_⟩
  · intro p hp
    rw [calculate_hashes_eq c hc data algorithms] at hp
    obtain ⟨q, hq, hpq⟩ := List.mem_map.mp hp
    refine ⟨q.2, ?_, ?_, ?_, ?_⟩
    · rw [← hpq]; exact hq
    · rw [← hpq]
    · rw [← hpq]; exact q.2.length_digestFn data
    · rw [← hpq]; exact q.2.lower_digestFn data
  · intro H
    exact ⟨lookup_registry_md5 H, H.md5_hexLen, lookup_registry_sha256 H,
      H.sha256_hexLen, lookup_registry_sha512 H, H.sha512_hexLen⟩

/-- Witness for C5 amended: keys of a two-algorithm request. -/
theorem claim_C5_witness :
    0 < 4 ∧ (FileHasher.calculate_hashes ⟨4⟩ [1, 2]
        [("MD5", testHashlib.md5), ("SHA-1", testHashlib.sha1)]).map Prod.fst
      = ["MD5", "SHA-1"] :=
  ⟨by decide, (claim_C5_amended 4 (by decide) [1, 2]
    [("MD5", testHashlib.md5), ("SHA-1", testHashlib.sha1)]).1⟩

/-- C8: history append adds at the end leaving previous entries
unchanged, clear empties the history, and appending three entries then
clearing leaves length 0 with reads returning the empty sequence. -/
theorem claim_C8_history :
    (∀ (h : List HistoryEntry) (e : HistoryEntry),
        historyAppend h e = h ++ [e]
          ∧ (historyAppend h e).length = h.length + 1
          ∧ (historyAppend h e).take h.length = h
          ∧ (historyAppend h e).getLast? = some e)
      ∧ (∀ h : List HistoryEntry, historyClear h = [] ∧ (historyClear h).length = 0)
      ∧ (∀ e₁ e₂ e₃ : HistoryEntry,
          (historyAppend (historyAppend (historyAppend [] e₁) e₂) e₃).length = 3
            ∧ historyClear (historyAppend (historyAppend (historyAppend [] e₁) e₂) e₃)
              = []) := by
  refine ⟨fun h e => ⟨rfl, ?_, ?_, ?_⟩, fun h => ⟨rfl, rfl⟩, fun e₁ e₂ e₃ => ⟨rfl, rfl⟩⟩
  · simp [historyAppend]
  · simpa [historyAppend] using List.take_left h [e]
  · simp [historyAppend]

/-- C9: `validate_file_count` accepts exactly the counts in the inclusive
range [1, 5]; both boundaries are accepted, 0 is rejected as too few and
6 as too many. -/
theorem claim_C9_file_count :
    (∀ count : Int, (FileValidator.validate_file_count count).1 = true
        ↔ (MIN_FILES_REQUIRED ≤ count ∧ count ≤ MAX_FILES_ALLOWED))
      ∧ (FileValidator.validate_file_count 1).1 = true
      ∧ (FileValidator.validate_file_count 5).1 = true
      ∧ FileValidator.validate_file_count 0
          = (false, "Please upload at least 1 file(s)")
      ∧ FileValidator.validate_file_count 6 = (false, "Maximum 5 files allowed") := by
  refine ⟨?_, by decide, by decide, by decide, by decide⟩
  intro count
  unfold FileValidator.validate_file_count MIN_FILES_REQUIRED MAX_FILES_ALLOWED
  split_ifs with h1 h2 <;> simp_all <;> omega

/-- C10: `verify_hash` errors (Python: raises `ValueError`) exactly on an
unregistered algorithm name; for a registered one it returns `ok true`
exactly when the computed digest equals the expected value compared
case-insensitively. -/
theorem claim_C10_verify_hash (H : Hashlib) (data : List Nat) (name exp : String) :
    ((HASH_ALGORITHMS H).lookup name = none →
        FileHasher.verify_hash H data name exp
          = Except.error ("Unknown algorithm: " ++ name))
      ∧ (∀ e, FileHasher.verify_hash H data name exp = Except.error e →
          (HASH_ALGORITHMS H).lookup name = none)
      ∧ (∀ algo, (HASH_ALGORITHMS H).lookup name = some algo →
          (FileHasher.verify_hash H data name exp = Except.ok true
            ↔ algo.digestFn data = pyLower exp)) := by
  unfold FileHasher.verify_hash
  refine ⟨fun h => by rw [h], ?_, ?_⟩
  · intro e he
    cases hlk : (HASH_ALGORITHMS H).lookup name with
    | none => rfl
    | some algo => rw [hlk] at he; exact absurd he (by simp)
  · intro algo hlk
    rw [hlk]
    simp only [Except.ok.injEq]
    rw [pyLower_of_lowercaseHex _ (algo.lower_digestFn data)]
    exact beq_iff_eq

/-- Witness for C10: the MD5 digest of `[9]` verifies against its
uppercase-hex expected value. -/
theorem claim_C10_witness :
    FileHasher.verify_hash testHashlib [9] "MD5" "0000000000000000000000000000009A"
      = Except.ok true :=
  ((claim_C10_verify_hash testHashlib [9] "MD5"
      "0000000000000000000000000000009A").2.2
    (mkDigestAlgo 32) (lookup_registry_md5 testHashlib)).mpr (by decide)
